import Mathlib

/-! SpatialTree: a verification development

Shallow embedding of `SpatialSearch/SpatialTree.h`.

Modelling conventions.

* `CoordinateType` is `double` in the source.  The development only ever compares
  coordinates with `<`, so the coordinate type is a parameter `C` carrying a decidable
  `<`, of which no order law is assumed.  Where the laws of `<` on `double` matter, `C` is
  `CoordinateType V`: a NaN, or a number of a linearly ordered set `V`.
* `size_t` counts (`Size`, `NumLeaves`, `Depth`, `MaxItemsPerLeaf`, `_maxItems`) are
  natural numbers.  Each of them counts distinct objects resident in the address space
  (points of a `list<Point>`, nodes of the tree), so no sum formed by the source reaches
  `2^64` and wrap-around never takes place.
* `unique_ptr<SpatialBranch>` children are owned, non-null subtrees; the virtual base
  class `SpatialBranch` with its two subclasses is the inductive type `SpatialBranch`
  with the constructors `leaf` (class `SpatialLeaf`) and `tree` (class `SpatialTree`).
* An unchecked `operator[]` read outside the vector has no defined value: it is `none`;
  `Point.ComponentOutcome` records that this case is undefined behaviour, not an error.
-/

namespace SpatialSearch

/-! ## Data model (SpatialTree.h, lines 11-82) -/

/-- The index type `enum class DimensionType : Coordinates::size_type {}`. -/
abbrev DimensionType := Nat

/-- The class `Point`: an identifier and a coordinate vector. -/
structure Point (C : Type) where
  _id : Nat
  _location : List C

/-- `Point::Component`: the unchecked read `_location[dimension]`. -/
def Point.Component {C : Type} (p : Point C) (dimension : DimensionType) : Option C :=
  p._location[dimension]?

/-- `Point::Dimension`: the length of the coordinate vector. -/
def Point.Dimension {C : Type} (p : Point C) : DimensionType :=
  p._location.length

/-- The class `Bounds`: per-dimension minima and maxima. -/
structure Bounds (C : Type) where
  _mins : List C
  _maxs : List C

/-- The data members of the class `SpatialLeaf`. -/
structure SpatialLeaf (C : Type) where
  _bounds : Bounds C
  _maxItems : Nat
  _points : List (Point C)

/-- The class hierarchy under `SpatialBranch`: a `SpatialLeaf`, or a `SpatialTree` with its
split dimension, split value and two owned children `_lb` and `_ub`. -/
inductive SpatialBranch (C : Type) where
  | leaf (l : SpatialLeaf C) : SpatialBranch C
  | tree (_splitDimension : DimensionType) (_splitValue : C)
      (_lb _ub : SpatialBranch C) : SpatialBranch C

/-! ## Aggregates of a leaf (SpatialTree.h, lines 103-118) -/

/-- `SpatialLeaf::MustSplit`: `_points.size() > _maxItems`. -/
def SpatialLeaf.MustSplit {C : Type} (l : SpatialLeaf C) : Bool :=
  decide (l._points.length > l._maxItems)

/-- `SpatialLeaf::Size`: `_points.size()`. -/
def SpatialLeaf.Size {C : Type} (l : SpatialLeaf C) : Nat :=
  l._points.length

/-- `SpatialLeaf::NumLeaves`: the constant 1. -/
def SpatialLeaf.NumLeaves {C : Type} (_l : SpatialLeaf C) : Nat :=
  1

/-- `SpatialLeaf::Depth`: the constant 1. -/
def SpatialLeaf.Depth {C : Type} (_l : SpatialLeaf C) : Nat :=
  1

/-- `SpatialLeaf::MaxItemsPerLeaf`: `Size()`. -/
def SpatialLeaf.MaxItemsPerLeaf {C : Type} (l : SpatialLeaf C) : Nat :=
  l.Size

/-! ## Aggregates through the virtual interface (SpatialTree.h, lines 133-148) -/

/-- `MustSplit` dispatched on the dynamic type; `SpatialTree::MustSplit` returns `false`. -/
def SpatialBranch.MustSplit {C : Type} : SpatialBranch C → Bool
  | .leaf l => l.MustSplit
  | .tree _ _ _ _ => false

/-- `Size` dispatched on the dynamic type; `SpatialTree::Size` is
`_lb->Size() + _ub->Size()`. -/
def SpatialBranch.Size {C : Type} : SpatialBranch C → Nat
  | .leaf l => l.Size
  | .tree _ _ lb ub => lb.Size + ub.Size

/-- `NumLeaves` dispatched on the dynamic type; `SpatialTree::NumLeaves` is
`_lb->NumLeaves() + _ub->NumLeaves()`. -/
def SpatialBranch.NumLeaves {C : Type} : SpatialBranch C → Nat
  | .leaf l => l.NumLeaves
  | .tree _ _ lb ub => lb.NumLeaves + ub.NumLeaves

/-- `Depth` dispatched on the dynamic type; `SpatialTree::Depth` is
`max(_lb->Depth(), _ub->Depth()) + 1`. -/
def SpatialBranch.Depth {C : Type} : SpatialBranch C → Nat
  | .leaf l => l.Depth
  | .tree _ _ lb ub => max lb.Depth ub.Depth + 1

/-- `MaxItemsPerLeaf` dispatched on the dynamic type; `SpatialTree::MaxItemsPerLeaf` is
`max(_lb->MaxItemsPerLeaf(), _ub->MaxItemsPerLeaf())`. -/
def SpatialBranch.MaxItemsPerLeaf {C : Type} : SpatialBranch C → Nat
  | .leaf l => l.MaxItemsPerLeaf
  | .tree _ _ lb ub => max lb.MaxItemsPerLeaf ub.MaxItemsPerLeaf

/-! ## Reference notions the aggregates are compared with -/

/-- The leaves of a tree, lower child first. -/
def SpatialBranch.leaves {C : Type} : SpatialBranch C → List (SpatialLeaf C)
  | .leaf l => [l]
  | .tree _ _ lb ub => lb.leaves ++ ub.leaves

/-- The root-to-leaf paths of a tree, each path listing the nodes it visits. -/
def SpatialBranch.paths {C : Type} : SpatialBranch C → List (List (SpatialBranch C))
  | .leaf l => [[.leaf l]]
  | .tree d v lb ub => (lb.paths ++ ub.paths).map (fun p => .tree d v lb ub :: p)

/-- The greatest element of a list of counts (0 for the empty list). -/
def maxOf (counts : List Nat) : Nat :=
  counts.foldr max 0

/-- The same tree with every leaf capacity replaced by `f` of that leaf. -/
def SpatialBranch.withCapacities {C : Type} (f : SpatialLeaf C → Nat) :
    SpatialBranch C → SpatialBranch C
  | .leaf l => .leaf { l with _maxItems := f l }
  | .tree d v lb ub => .tree d v (lb.withCapacities f) (ub.withCapacities f)

/-! ## Operations declared in the header whose bodies are not part of the sources -/

/-- Modelled from the spec: the body of the function `next`, declared at line 18 of
SpatialTree.h; it advances to `(dimension + 1) mod maxDimension`. -/
def next (dimension maxDimension : DimensionType) : DimensionType :=
  (dimension + 1) % maxDimension

/-- Modelled from the spec: the body of `Bounds::Split`, declared at line 77 of
SpatialTree.h; the lower half is the original box except `maxs[dimension] = value`, and a
dimension index outside the box fails. -/
def Bounds.Split {C : Type} (b : Bounds C) (dimension : DimensionType) (splitValue : C) :
    Option (Bounds C) :=
  if dimension < b._maxs.length then
    some { b with _maxs := b._maxs.set dimension splitValue }
  else none

/-- Modelled from the spec: the complementary upper half that the caller of `Bounds::Split`
builds, the original box with `mins[dimension] = value`; no such member exists in
SpatialTree.h. -/
def Bounds.UpperHalf {C : Type} (b : Bounds C) (dimension : DimensionType) (splitValue : C) :
    Option (Bounds C) :=
  if dimension < b._mins.length then
    some { b with _mins := b._mins.set dimension splitValue }
  else none

/-- Modelled from the spec: the body of `SpatialLeaf::Add`, declared at line 102 of
SpatialTree.h; the point is appended to the held collection and nothing else happens. -/
def SpatialLeaf.Add {C : Type} (l : SpatialLeaf C) (point : Point C) : SpatialLeaf C :=
  { l with _points := l._points ++ [point] }

/-- Each point paired with its component along `dimension`; fails when one of the reads
is out of range. -/
def componentsAlong {C : Type} (dimension : DimensionType) :
    List (Point C) → Option (List (C × Point C))
  | [] => some []
  | p :: ps =>
    match p.Component dimension, componentsAlong dimension ps with
    | some c, some rest => some ((c, p) :: rest)
    | _, _ => none

/-- What a call of `SpatialLeaf::Split` leaves behind: the returned lower leaf, the value
written through the `splitValue` reference, and the leaf `this` after the call. -/
structure SplitOutcome (C : Type) where
  returned : SpatialLeaf C
  splitValue : C
  retained : SpatialLeaf C

/-- Modelled from the spec: the body of `SpatialLeaf::Split`, declared at line 120 of
SpatialTree.h.  The points are ordered by their component along `dimension`, the split
value is the component of the median point (position `size / 2` of the ordered points),
the points whose component is below the split value go to the returned leaf, which gets
the lower-half bounds and the same capacity, and the other points stay in this leaf with
the upper-half bounds. -/
def SpatialLeaf.Split {C : Type} [LT C] [DecidableRel (fun a b : C => a < b)]
    (l : SpatialLeaf C) (dimension : DimensionType) : Option (SplitOutcome C) :=
  match componentsAlong dimension l._points with
  | none => none
  | some keyed =>
    let ordered := keyed.insertionSort (fun a b => ¬ b.1 < a.1)
    match ordered[ordered.length / 2]? with
    | none => none
    | some median =>
      let splitValue := median.1
      match l._bounds.Split dimension splitValue, l._bounds.UpperHalf dimension splitValue with
      | some lowerBounds, some upperBounds =>
        some
          { returned :=
              { _bounds := lowerBounds
                _maxItems := l._maxItems
                _points := (ordered.filter (fun kp => decide (kp.1 < splitValue))).map Prod.snd }
            splitValue := splitValue
            retained :=
              { _bounds := upperBounds
                _maxItems := l._maxItems
                _points :=
                  (ordered.filter (fun kp => !decide (kp.1 < splitValue))).map Prod.snd } }
      | _, _ => none

/-- Modelled from the spec: the step of the owner of a branch after every `Add` (no such
member exists in SpatialTree.h): when the branch reports `MustSplit()`, it is split along
`dimension` and replaced by an internal node keyed on `(dimension, splitValue)` whose
children are the returned lower leaf and the retained upper leaf. -/
def SpatialBranch.SplitIfNeeded {C : Type} [LT C] [DecidableRel (fun a b : C => a < b)]
    (b : SpatialBranch C) (dimension : DimensionType) : Option (SpatialBranch C) :=
  match b with
  | .leaf l =>
    if l.MustSplit then
      match l.Split dimension with
      | some r => some (.tree dimension r.splitValue (.leaf r.returned) (.leaf r.retained))
      | none => none
    else some (.leaf l)
  | .tree d v lb ub => some (.tree d v lb ub)

/-- Modelled from the spec: `Add` through the virtual interface, with the body of
`SpatialTree::Add`, declared at line 132 of SpatialTree.h.  An internal node compares the
component of the point along its split dimension with its split value, routes the point to
the lower child if it is less and to the upper child otherwise, and then replaces the
receiving child if it overflowed, splitting it along the next dimension. -/
def SpatialBranch.Add {C : Type} [LT C] [DecidableRel (fun a b : C => a < b)] :
    SpatialBranch C → Point C → Option (SpatialBranch C)
  | .leaf l, point => some (.leaf (l.Add point))
  | .tree d v lb ub, point =>
    match point.Component d with
    | none => none
    | some c =>
      if c < v then
        match lb.Add point with
        | none => none
        | some lb1 =>
          match lb1.SplitIfNeeded (next d point.Dimension) with
          | none => none
          | some lb2 => some (.tree d v lb2 ub)
      else
        match ub.Add point with
        | none => none
        | some ub1 =>
          match ub1.SplitIfNeeded (next d point.Dimension) with
          | none => none
          | some ub2 => some (.tree d v lb ub2)

/-- Modelled from the spec: the root holder of section 6 (no such class exists in
SpatialTree.h): the dimensionality fixed at construction, the axis of the first split,
which the spec leaves open, and the root branch. -/
structure SpatialIndex (C : Type) where
  dimensionality : DimensionType
  firstDimension : DimensionType
  root : SpatialBranch C

/-- Modelled from the spec: construction of section 6, a root that is a single empty leaf
with the given bounding region and capacity. -/
def SpatialIndex.create {C : Type} (bounds : Bounds C) (dimensionality : DimensionType)
    (maxItems : Nat) (firstDimension : DimensionType) : SpatialIndex C :=
  { dimensionality := dimensionality
    firstDimension := firstDimension
    root := .leaf { _bounds := bounds, _maxItems := maxItems, _points := [] } }

/-- Modelled from the spec: `insert(point)` of section 6.  A point whose dimension differs
from the dimensionality of the tree fails; otherwise the point enters at the root, and a
root that overflowed is replaced by the internal node of its split. -/
def SpatialIndex.insert {C : Type} [LT C] [DecidableRel (fun a b : C => a < b)]
    (s : SpatialIndex C) (point : Point C) : Option (SpatialIndex C) :=
  if point.Dimension = s.dimensionality then
    match s.root.Add point with
    | none => none
    | some r1 =>
      match r1.SplitIfNeeded s.firstDimension with
      | none => none
      | some r2 => some { s with root := r2 }
  else none

/-- A sequence of insertions, first point first. -/
def SpatialIndex.insertAll {C : Type} [LT C] [DecidableRel (fun a b : C => a < b)]
    (s : SpatialIndex C) : List (Point C) → Option (SpatialIndex C)
  | [] => some s
  | p :: ps =>
    match s.insert p with
    | none => none
    | some s1 => s1.insertAll ps

/-- Every split dimension, every bounding box and every held point of the tree has
dimension `D`. -/
def SpatialBranch.HasDimension {C : Type} (D : DimensionType) : SpatialBranch C → Prop
  | .leaf l =>
    l._bounds._mins.length = D ∧ l._bounds._maxs.length = D ∧ ∀ p ∈ l._points, p.Dimension = D
  | .tree d _ lb ub => d < D ∧ lb.HasDimension D ∧ ub.HasDimension D

/-! ## Point construction, the comparator and the coordinate type (SpatialTree.h, lines 11-60) -/

/-- The constructor `Point(size_t id, const Coordinates & location)`: the vector is
copied into the point. -/
def Point.fromCopy {C : Type} (id : Nat) (location : List C) : Point C :=
  { _id := id, _location := location }

/-- The constructor `Point(size_t id, Coordinates && location)`: the vector is moved into
the point, which then holds the elements the argument held. -/
def Point.fromMove {C : Type} (id : Nat) (location : List C) : Point C :=
  { _id := id, _location := location }

/-- How a call ends: with a value, with an error raised by a check in the code, or outside
the defined behaviour of the language. -/
inductive Outcome (α : Type) where
  | value (a : α) : Outcome α
  | error : Outcome α
  | undefined : Outcome α

/-- `Point::Component` together with the kind of its failure case.  The source reads
`_location[dimension]` through `operator[]`, which checks nothing and raises nothing, so a
read outside the vector is undefined behaviour and not an error. -/
def Point.ComponentOutcome {C : Type} (p : Point C) (dimension : DimensionType) : Outcome C :=
  match p.Component dimension with
  | some c => .value c
  | none => .undefined

/-- The class `DimensionComparator`: the dimension fixed at construction. -/
structure DimensionComparator where
  _dim : DimensionType

/-- `DimensionComparator::operator()`: `p1.Component(_dim) < p2.Component(_dim)`; there is
no result when one of the two reads is out of range. -/
def DimensionComparator.call {C : Type} [LT C] [DecidableRel (fun a b : C => a < b)]
    (cmp : DimensionComparator) (p1 p2 : Point C) : Option Bool :=
  match p1.Component cmp._dim, p2.Component cmp._dim with
  | some c1, some c2 => some (decide (c1 < c2))
  | _, _ => none

/-- The comparator holds of `p1` and `p2`: the call returns `true`. -/
def DimensionComparator.Holds {C : Type} [LT C] [DecidableRel (fun a b : C => a < b)]
    (cmp : DimensionComparator) (p1 p2 : Point C) : Prop :=
  cmp.call p1 p2 = some true

/-- Incomparability under the comparator: the call returns `false` in both directions. -/
def DimensionComparator.Incomparable {C : Type} [LT C] [DecidableRel (fun a b : C => a < b)]
    (cmp : DimensionComparator) (p1 p2 : Point C) : Prop :=
  cmp.call p1 p2 = some false ∧ cmp.call p2 p1 = some false

/-- The type `double` behind `typedef double CoordinateType`, as the comparison `<`
observes it: a NaN, or a number drawn from an ordered set `V` of values (for `double` the
finite values and the two infinities, the two zeros being one value). -/
inductive CoordinateType (V : Type) where
  | nan : CoordinateType V
  | number (value : V) : CoordinateType V

/-- The comparison `<` of `double`: the order of the two numbers, and false as soon as one
side is a NaN. -/
def CoordinateType.lt {V : Type} [LT V] : CoordinateType V → CoordinateType V → Prop
  | .number x, .number y => x < y
  | _, _ => False

instance CoordinateType.instLT {V : Type} [LT V] : LT (CoordinateType V) :=
  ⟨CoordinateType.lt⟩

instance CoordinateType.decLt {V : Type} [LT V] [DecidableRel (fun a b : V => a < b)] :
    DecidableRel (fun a b : CoordinateType V => a < b)
  | .number x, .number y => inferInstanceAs (Decidable (x < y))
  | .nan, .nan => isFalse (fun h => h)
  | .nan, .number _ => isFalse (fun h => h)
  | .number _, .nan => isFalse (fun h => h)

/-! ## Helper lemmas -/

theorem maxOf_append (xs ys : List Nat) : maxOf (xs ++ ys) = max (maxOf xs) (maxOf ys) := by
  induction xs with
  | nil => simp [maxOf]
  | cons x xs ih =>
    simp only [maxOf, List.cons_append, List.foldr_cons] at ih ⊢
    rw [ih, max_assoc]

theorem maxOf_map_succ (xs : List Nat) (h : xs ≠ []) :
    maxOf (xs.map (· + 1)) = maxOf xs + 1 := by
  induction xs with
  | nil => exact absurd rfl h
  | cons x xs ih =>
    cases xs with
    | nil => simp [maxOf]
    | cons y ys =>
      have := ih (by simp)
      simp only [maxOf, List.map_cons, List.foldr_cons] at this ⊢
      rw [this]
      omega

theorem paths_ne_nil {C : Type} (t : SpatialBranch C) : t.paths ≠ [] := by
  induction t with
  | leaf l => simp [SpatialBranch.paths]
  | tree d v lb ub ihl _ => simp [SpatialBranch.paths, ihl]

/-! ## Helper lemmas on `Split`, `Add` and `insert` -/

section SplitAndAdd

variable {C : Type}

theorem componentsAlong_map_snd (d : DimensionType) :
    ∀ (ps : List (Point C)) (ks : List (C × Point C)),
      componentsAlong d ps = some ks → ks.map Prod.snd = ps := by
  intro ps
  induction ps with
  | nil => intro ks h; simp [componentsAlong] at h; simp [← h]
  | cons p ps ih =>
    intro ks h
    simp only [componentsAlong] at h
    split at h
    · rename_i c rest _ hrest
      cases h
      simp [ih rest hrest]
    · cases h

theorem componentsAlong_total (d : DimensionType) :
    ∀ ps : List (Point C), (∀ p ∈ ps, d < p.Dimension) →
      ∃ ks, componentsAlong d ps = some ks := by
  intro ps
  induction ps with
  | nil => intro _; exact ⟨[], rfl⟩
  | cons p ps ih =>
    intro h
    obtain ⟨rest, hrest⟩ := ih (fun q hq => h q (List.mem_cons_of_mem _ hq))
    have hp : d < p._location.length := h p (List.mem_cons_self _ _)
    refine ⟨(p._location[d], p) :: rest, ?_⟩
    simp [componentsAlong, hrest, Point.Component, List.getElem?_eq_getElem hp]

variable [LT C] [DecidableRel (fun a b : C => a < b)]

theorem split_spec (l : SpatialLeaf C) (d : DimensionType) (r : SplitOutcome C)
    (h : l.Split d = some r) :
    (r.returned._points ++ r.retained._points).Perm l._points ∧
    r.returned._maxItems = l._maxItems ∧ r.retained._maxItems = l._maxItems ∧
    r.returned._bounds._mins.length = l._bounds._mins.length ∧
    r.returned._bounds._maxs.length = l._bounds._maxs.length ∧
    r.retained._bounds._mins.length = l._bounds._mins.length ∧
    r.retained._bounds._maxs.length = l._bounds._maxs.length := by
  unfold SpatialLeaf.Split at h
  split at h
  · cases h
  · rename_i keyed hk
    simp only at h
    split at h
    · cases h
    · rename_i median hm
      split at h
      · rename_i lo up hlo hup
        cases h
        simp only [Bounds.Split, Bounds.UpperHalf] at hlo hup
        split at hlo <;> cases hlo
        split at hup <;> cases hup
        refine ⟨?_, rfl, rfl, ?_, ?_, ?_, ?_⟩
        · rw [← List.map_append]
          have h1 := List.filter_append_perm (fun kp : C × Point C => decide (kp.1 < median.1))
            (keyed.insertionSort (fun a b => ¬ b.1 < a.1))
          have h2 := (h1.trans (List.perm_insertionSort _ keyed)).map Prod.snd
          rw [componentsAlong_map_snd d _ _ hk] at h2
          exact h2
        all_goals simp
      · cases h

theorem split_total (l : SpatialLeaf C) (d : DimensionType) (hne : l._points ≠ [])
    (hp : ∀ p ∈ l._points, d < p.Dimension) (hmin : d < l._bounds._mins.length)
    (hmax : d < l._bounds._maxs.length) : ∃ r, l.Split d = some r := by
  obtain ⟨keyed, hk⟩ := componentsAlong_total d l._points hp
  have hlen : keyed.length = l._points.length := by
    rw [← componentsAlong_map_snd d _ _ hk, List.length_map]
  have hpos : 0 < keyed.length := by
    rw [hlen]; exact List.length_pos.mpr hne
  have hidx : (keyed.insertionSort (fun a b => ¬ b.1 < a.1)).length / 2 <
      (keyed.insertionSort (fun a b => ¬ b.1 < a.1)).length := by
    rw [List.length_insertionSort]; omega
  unfold SpatialLeaf.Split
  simp only [hk, List.getElem?_eq_getElem hidx, Bounds.Split, Bounds.UpperHalf, hmin, hmax,
    if_true]
  exact ⟨_, rfl⟩

theorem splitIfNeeded_size (b b1 : SpatialBranch C) (d : DimensionType)
    (h : b.SplitIfNeeded d = some b1) : b1.Size = b.Size := by
  cases b with
  | leaf l =>
    simp only [SpatialBranch.SplitIfNeeded] at h
    split at h
    · split at h
      · rename_i r hr
        cases h
        have := (split_spec l d r hr).1.length_eq
        simp only [List.length_append] at this
        simpa [SpatialBranch.Size, SpatialLeaf.Size] using this
      · cases h
    · cases h; rfl
  | tree d1 v lb ub =>
    simp only [SpatialBranch.SplitIfNeeded] at h
    cases h; rfl

theorem splitIfNeeded_total (D : DimensionType) (b : SpatialBranch C) (d : DimensionType)
    (hb : b.HasDimension D) (hd : d < D) :
    ∃ b1, b.SplitIfNeeded d = some b1 ∧ b1.HasDimension D := by
  cases b with
  | leaf l =>
    obtain ⟨hmin, hmax, hpts⟩ := hb
    simp only [SpatialBranch.SplitIfNeeded]
    by_cases hm : l.MustSplit = true
    · have hne : l._points ≠ [] := by
        intro h0
        simp [SpatialLeaf.MustSplit, h0] at hm
      obtain ⟨r, hr⟩ := split_total l d hne (fun p hp => by rw [hpts p hp]; exact hd)
        (by rw [hmin]; exact hd) (by rw [hmax]; exact hd)
      obtain ⟨hperm, _, _, h1, h2, h3, h4⟩ := split_spec l d r hr
      refine ⟨.tree d r.splitValue (.leaf r.returned) (.leaf r.retained),
        by simp only [hm, hr, if_true], hd, ⟨?_, ?_, ?_⟩, ⟨?_, ?_, ?_⟩⟩
      · rw [h1, hmin]
      · rw [h2, hmax]
      · intro p hp
        exact hpts p (hperm.subset (List.mem_append_left _ hp))
      · rw [h3, hmin]
      · rw [h4, hmax]
      · intro p hp
        exact hpts p (hperm.subset (List.mem_append_right _ hp))
    · refine ⟨.leaf l, by simp only [hm]; rfl, hmin, hmax, hpts⟩
  | tree d1 v lb ub => exact ⟨_, rfl, hb⟩

theorem add_size (t : SpatialBranch C) (p : Point C) :
    ∀ t1, t.Add p = some t1 → t1.Size = t.Size + 1 := by
  induction t with
  | leaf l =>
    intro t1 h
    simp only [SpatialBranch.Add] at h
    cases h
    simp [SpatialBranch.Size, SpatialLeaf.Size, SpatialLeaf.Add]
  | tree d v lb ub ihl ihu =>
    intro t1 h
    simp only [SpatialBranch.Add] at h
    split at h
    · cases h
    · split at h
      · split at h
        · cases h
        · rename_i lb1 hlb1
          split at h
          · cases h
          · rename_i lb2 hlb2
            cases h
            have h1 := ihl lb1 hlb1
            have h2 := splitIfNeeded_size lb1 lb2 _ hlb2
            simp only [SpatialBranch.Size]
            omega
      · split at h
        · cases h
        · rename_i ub1 hub1
          split at h
          · cases h
          · rename_i ub2 hub2
            cases h
            have h1 := ihu ub1 hub1
            have h2 := splitIfNeeded_size ub1 ub2 _ hub2
            simp only [SpatialBranch.Size]
            omega

theorem add_total (D : DimensionType) (t : SpatialBranch C) (p : Point C)
    (hp : p.Dimension = D) :
    t.HasDimension D → ∃ t1, t.Add p = some t1 ∧ t1.HasDimension D := by
  induction t with
  | leaf l =>
    intro ht
    obtain ⟨hmin, hmax, hpts⟩ := ht
    refine ⟨_, rfl, hmin, hmax, ?_⟩
    intro q hq
    simp only [SpatialLeaf.Add, List.mem_append, List.mem_singleton] at hq
    rcases hq with hq | hq
    · exact hpts q hq
    · rw [hq]; exact hp
  | tree d v lb ub ihl ihu =>
    intro ht
    obtain ⟨hd, hlb, hub⟩ := ht
    have hnext : next d p.Dimension < D := by
      rw [hp]; exact Nat.mod_lt _ (Nat.lt_of_le_of_lt (Nat.zero_le d) hd)
    have hlen : d < p._location.length := by
      have h0 : p._location.length = D := hp
      rw [h0]; exact hd
    have hc : p.Component d = some p._location[d] := by
      simp [Point.Component, List.getElem?_eq_getElem hlen]
    simp only [SpatialBranch.Add, hc]
    by_cases hlt : p._location[d] < v
    · obtain ⟨lb1, hlb1, hw1⟩ := ihl hlb
      obtain ⟨lb2, hlb2, hw2⟩ := splitIfNeeded_total D lb1 _ hw1 hnext
      exact ⟨.tree d v lb2 ub, by simp only [hlt, if_true, hlb1, hlb2], hd, hw2, hub⟩
    · obtain ⟨ub1, hub1, hw1⟩ := ihu hub
      obtain ⟨ub2, hub2, hw2⟩ := splitIfNeeded_total D ub1 _ hw1 hnext
      exact ⟨.tree d v lb ub2, by simp only [hlt, if_false, hub1, hub2], hd, hlb, hw2⟩

theorem insert_size (s s1 : SpatialIndex C) (p : Point C) (h : s.insert p = some s1) :
    s1.root.Size = s.root.Size + 1 := by
  simp only [SpatialIndex.insert] at h
  split at h
  · split at h
    · cases h
    · rename_i r1 hr1
      split at h
      · cases h
      · rename_i r2 hr2
        cases h
        have h1 := add_size s.root p r1 hr1
        have h2 := splitIfNeeded_size r1 r2 _ hr2
        simp only
        omega
  · cases h

theorem insert_total (s : SpatialIndex C) (p : Point C)
    (hp : p.Dimension = s.dimensionality) (hd : s.firstDimension < s.dimensionality)
    (hr : s.root.HasDimension s.dimensionality) :
    ∃ s1, s.insert p = some s1 ∧ s1.dimensionality = s.dimensionality ∧
      s1.firstDimension = s.firstDimension ∧ s1.root.HasDimension s.dimensionality := by
  obtain ⟨r1, hr1, hw1⟩ := add_total s.dimensionality s.root p hp hr
  obtain ⟨r2, hr2, hw2⟩ := splitIfNeeded_total s.dimensionality r1 _ hw1 hd
  exact ⟨{ s with root := r2 }, by simp only [SpatialIndex.insert, hp, if_true, hr1, hr2],
    rfl, rfl, hw2⟩

theorem insertAll_size (pts : List (Point C)) :
    ∀ s s1 : SpatialIndex C, s.insertAll pts = some s1 →
      s1.root.Size = s.root.Size + pts.length := by
  induction pts with
  | nil => intro s s1 h; simp only [SpatialIndex.insertAll] at h; cases h; rfl
  | cons p ps ih =>
    intro s s1 h
    simp only [SpatialIndex.insertAll] at h
    split at h
    · cases h
    · rename_i s2 hs2
      have h1 := insert_size s s2 p hs2
      have h2 := ih s2 s1 h
      simp only [List.length_cons]
      omega

theorem insertAll_total (pts : List (Point C)) :
    ∀ s : SpatialIndex C, (∀ p ∈ pts, p.Dimension = s.dimensionality) →
      s.firstDimension < s.dimensionality → s.root.HasDimension s.dimensionality →
      ∃ s1, s.insertAll pts = some s1 := by
  induction pts with
  | nil => intro s _ _ _; exact ⟨s, rfl⟩
  | cons p ps ih =>
    intro s hp hd hr
    obtain ⟨s2, hs2, e1, e2, hw⟩ := insert_total s p (hp p (List.mem_cons_self _ _)) hd hr
    obtain ⟨s1, hs1⟩ := ih s2 (fun q hq => by rw [e1]; exact hp q (List.mem_cons_of_mem _ hq))
      (by rw [e1, e2]; exact hd) (by rw [e1]; exact hw)
    exact ⟨s1, by simp only [SpatialIndex.insertAll, hs2, hs1]⟩

end SplitAndAdd

/-! ## Size (C1) -/

/-- C1: for every tree, `Size()` is the sum of the held-point counts of all its leaves;
a leaf returns the number of points it holds and an internal node returns
`Size(lower child) + Size(upper child)`. -/
theorem size_eq_sum_of_leaf_counts {C : Type} :
    (∀ t : SpatialBranch C, t.Size = (t.leaves.map (fun l => l._points.length)).sum) ∧
    (∀ l : SpatialLeaf C, (SpatialBranch.leaf l).Size = l._points.length) ∧
    (∀ (d : DimensionType) (v : C) (lb ub : SpatialBranch C),
      (SpatialBranch.tree d v lb ub).Size = lb.Size + ub.Size) := by
  refine ⟨?_, fun _ => rfl, fun _ _ _ _ => rfl⟩
  intro t
  induction t with
  | leaf l => simp [SpatialBranch.Size, SpatialBranch.leaves, SpatialLeaf.Size]
  | tree d v lb ub ihl ihu =>
    simp [SpatialBranch.Size, SpatialBranch.leaves, ihl, ihu]

/-! ## Insertion keeps every point (C2) -/

/-- C2: for every sequence of N points inserted into a tree that starts as a single empty
leaf, with overflowing leaves split and replaced by internal nodes, `Size()` is N after
all insertions.  Whenever the insertions go through the resulting size is N, and they do
go through when the bounding box, the first split axis and every point agree with the
dimensionality of the tree. -/
theorem size_after_insertions {C : Type} [LT C] [DecidableRel (fun a b : C => a < b)]
    (bounds : Bounds C) (D maxItems firstDimension : Nat) (pts : List (Point C)) :
    (∀ s, (SpatialIndex.create bounds D maxItems firstDimension).insertAll pts = some s →
      s.root.Size = pts.length) ∧
    (bounds._mins.length = D → bounds._maxs.length = D → firstDimension < D →
      (∀ p ∈ pts, p.Dimension = D) →
      ∃ s, (SpatialIndex.create bounds D maxItems firstDimension).insertAll pts = some s ∧
        s.root.Size = pts.length) := by
  have hsize : ∀ s,
      (SpatialIndex.create bounds D maxItems firstDimension).insertAll pts = some s →
      s.root.Size = pts.length := by
    intro s hs
    have h := insertAll_size pts _ s hs
    simpa [SpatialIndex.create, SpatialBranch.Size, SpatialLeaf.Size] using h
  refine ⟨hsize, ?_⟩
  intro hmin hmax hd hp
  obtain ⟨s, hs⟩ := insertAll_total pts
    (SpatialIndex.create bounds D maxItems firstDimension) hp hd
    ⟨hmin, hmax, fun p hp0 => absurd hp0 (List.not_mem_nil p)⟩
  exact ⟨s, hs, hsize s hs⟩

/-- Witness of C2: the four points 5, 1, 9, 3 inserted into an empty one-dimensional leaf
of capacity 2 give a root split at 5 whose leaves hold 1, 3 and 5, 9. -/
theorem size_after_insertions_witness :
    ((SpatialIndex.create (⟨[-100], [100]⟩ : Bounds Int) 1 2 0).insertAll
        [⟨0, [5]⟩, ⟨1, [1]⟩, ⟨2, [9]⟩, ⟨3, [3]⟩] =
      some ⟨1, 0, .tree 0 5 (.leaf ⟨⟨[-100], [5]⟩, 2, [⟨1, [1]⟩, ⟨3, [3]⟩]⟩)
        (.leaf ⟨⟨[5], [100]⟩, 2, [⟨0, [5]⟩, ⟨2, [9]⟩]⟩)⟩) ∧
    (SpatialBranch.tree 0 5 (.leaf ⟨⟨[-100], [5]⟩, 2, [⟨1, [1]⟩, ⟨3, [3]⟩]⟩)
        (.leaf ⟨⟨[5], [100]⟩, 2, [⟨0, [5]⟩, ⟨2, [9]⟩]⟩) : SpatialBranch Int).Size = 4 ∧
    (∀ p ∈ ([⟨0, [5]⟩, ⟨1, [1]⟩, ⟨2, [9]⟩, ⟨3, [3]⟩] : List (Point Int)), p.Dimension = 1) ∧
    ∃ s, (SpatialIndex.create (⟨[-100], [100]⟩ : Bounds Int) 1 2 0).insertAll
        [⟨0, [5]⟩, ⟨1, [1]⟩, ⟨2, [9]⟩, ⟨3, [3]⟩] = some s ∧
      s.root.Size = ([⟨0, [5]⟩, ⟨1, [1]⟩, ⟨2, [9]⟩, ⟨3, [3]⟩] : List (Point Int)).length :=
  ⟨rfl,
    (size_after_insertions (⟨[-100], [100]⟩ : Bounds Int) 1 2 0
      [⟨0, [5]⟩, ⟨1, [1]⟩, ⟨2, [9]⟩, ⟨3, [3]⟩]).1
      ⟨1, 0, .tree 0 5 (.leaf ⟨⟨[-100], [5]⟩, 2, [⟨1, [1]⟩, ⟨3, [3]⟩]⟩)
        (.leaf ⟨⟨[5], [100]⟩, 2, [⟨0, [5]⟩, ⟨2, [9]⟩]⟩)⟩ rfl,
    by simp [Point.Dimension],
    (size_after_insertions (⟨[-100], [100]⟩ : Bounds Int) 1 2 0
      [⟨0, [5]⟩, ⟨1, [1]⟩, ⟨2, [9]⟩, ⟨3, [3]⟩]).2 rfl rfl (by decide)
      (by simp [Point.Dimension])⟩

/-! ## MustSplit (C3, C4) -/

/-- C3: for every leaf with capacity c holding n points, `SpatialLeaf::MustSplit()` is
true if and only if n > c; in particular it is false for a leaf holding exactly c
points. -/
theorem leaf_mustSplit_iff_exceeds_capacity {C : Type} :
    (∀ l : SpatialLeaf C, l.MustSplit = true ↔ l._points.length > l._maxItems) ∧
    (∀ (bounds : Bounds C) (pts : List (Point C)),
      (SpatialLeaf.mk bounds pts.length pts).MustSplit = false) := by
  constructor
  · intro l
    simp [SpatialLeaf.MustSplit]
  · intro bounds pts
    simp [SpatialLeaf.MustSplit]

/-- C4: for every internal node, whatever its children hold, `MustSplit()` returns
false. -/
theorem tree_mustSplit_false {C : Type} (d : DimensionType) (v : C)
    (lb ub : SpatialBranch C) : (SpatialBranch.tree d v lb ub).MustSplit = false :=
  rfl

/-! ## NumLeaves (C5, C6) -/

/-- C5: for every tree, `NumLeaves()` is the number of leaf nodes in it; a leaf returns 1
and an internal node returns `NumLeaves(lower child) + NumLeaves(upper child)`. -/
theorem numLeaves_eq_number_of_leaves {C : Type} :
    (∀ t : SpatialBranch C, t.NumLeaves = t.leaves.length) ∧
    (∀ l : SpatialLeaf C, (SpatialBranch.leaf l).NumLeaves = 1) ∧
    (∀ (d : DimensionType) (v : C) (lb ub : SpatialBranch C),
      (SpatialBranch.tree d v lb ub).NumLeaves = lb.NumLeaves + ub.NumLeaves) := by
  refine ⟨?_, fun _ => rfl, fun _ _ _ _ => rfl⟩
  intro t
  induction t with
  | leaf l => simp [SpatialBranch.NumLeaves, SpatialBranch.leaves, SpatialLeaf.NumLeaves]
  | tree d v lb ub ihl ihu =>
    simp [SpatialBranch.NumLeaves, SpatialBranch.leaves, ihl, ihu]

/-- C6: for every tree, `NumLeaves() >= 1`. -/
theorem numLeaves_pos {C : Type} (t : SpatialBranch C) : t.NumLeaves ≥ 1 := by
  induction t with
  | leaf l => simp [SpatialBranch.NumLeaves, SpatialLeaf.NumLeaves]
  | tree d v lb ub ihl ihu =>
    simp only [SpatialBranch.NumLeaves]
    omega

/-! ## Depth (C7, C8) -/

/-- C7: for every tree, `Depth()` is the number of nodes on the longest root-to-leaf
path; a leaf returns 1 and an internal node returns
`1 + max(Depth(lower child), Depth(upper child))`. -/
theorem depth_eq_longest_path {C : Type} :
    (∀ t : SpatialBranch C, t.Depth = maxOf (t.paths.map List.length)) ∧
    (∀ l : SpatialLeaf C, (SpatialBranch.leaf l).Depth = 1) ∧
    (∀ (d : DimensionType) (v : C) (lb ub : SpatialBranch C),
      (SpatialBranch.tree d v lb ub).Depth = 1 + max lb.Depth ub.Depth) := by
  refine ⟨?_, fun _ => rfl, fun _ _ _ _ => Nat.add_comm _ _⟩
  intro t
  induction t with
  | leaf l => simp [SpatialBranch.Depth, SpatialBranch.paths, SpatialLeaf.Depth, maxOf]
  | tree d v lb ub ihl ihu =>
    have hne : (lb.paths ++ ub.paths).map List.length ≠ [] := by
      simp [paths_ne_nil lb]
    have hmap : ((lb.paths ++ ub.paths).map (fun p => SpatialBranch.tree d v lb ub :: p)).map
        List.length = ((lb.paths ++ ub.paths).map List.length).map (· + 1) := by
      simp [List.map_map, Function.comp_def]
    simp only [SpatialBranch.Depth, SpatialBranch.paths]
    rw [hmap, maxOf_map_succ _ hne, List.map_append, maxOf_append, ihl, ihu]

/-- C8: `Depth()` of a tree consisting of a single leaf is 1, and `Depth()` of an internal
node whose two children are both leaves, the tree obtained after exactly one split, is 2,
whatever points the leaves hold. -/
theorem depth_one_leaf_and_one_split {C : Type} :
    (∀ l : SpatialLeaf C, (SpatialBranch.leaf l).Depth = 1) ∧
    (∀ (d : DimensionType) (v : C) (l1 l2 : SpatialLeaf C),
      (SpatialBranch.tree d v (.leaf l1) (.leaf l2)).Depth = 2) :=
  ⟨fun _ => rfl, fun _ _ _ _ => rfl⟩

/-! ## MaxItemsPerLeaf (C9) -/

/-- C9: for every tree, `MaxItemsPerLeaf()` is the maximum held-point count over all
leaves of the tree; a leaf returns its own size and an internal node returns the maximum
over its two children; the value does not depend on the configured capacities. -/
theorem maxItemsPerLeaf_eq_max_leaf_count {C : Type} :
    (∀ t : SpatialBranch C,
      t.MaxItemsPerLeaf = maxOf (t.leaves.map (fun l => l._points.length))) ∧
    (∀ l : SpatialLeaf C, (SpatialBranch.leaf l).MaxItemsPerLeaf = l._points.length) ∧
    (∀ (d : DimensionType) (v : C) (lb ub : SpatialBranch C),
      (SpatialBranch.tree d v lb ub).MaxItemsPerLeaf =
        max lb.MaxItemsPerLeaf ub.MaxItemsPerLeaf) ∧
    (∀ (f : SpatialLeaf C → Nat) (t : SpatialBranch C),
      (t.withCapacities f).MaxItemsPerLeaf = t.MaxItemsPerLeaf) := by
  refine ⟨?_, fun _ => rfl, fun _ _ _ _ => rfl, ?_⟩
  · intro t
    induction t with
    | leaf l =>
      simp [SpatialBranch.MaxItemsPerLeaf, SpatialBranch.leaves, SpatialLeaf.MaxItemsPerLeaf,
        SpatialLeaf.Size, maxOf]
    | tree d v lb ub ihl ihu =>
      simp only [SpatialBranch.MaxItemsPerLeaf, SpatialBranch.leaves, List.map_append,
        maxOf_append, ihl, ihu]
  · intro f t
    induction t with
    | leaf l => rfl
    | tree d v lb ub ihl ihu =>
      simp only [SpatialBranch.withCapacities, SpatialBranch.MaxItemsPerLeaf, ihl, ihu]

/-! ## Split keeps every point (C10) -/

/-- C10: for every leaf and every dimension in range, `SpatialLeaf::Split` places every
point of the leaf on exactly one side: the points of the returned lower leaf together with
the points retained in this leaf are, as a multiset, exactly the points held before the
split, so the two sizes sum to the size before the split.  This holds of every outcome of
`Split`, and `Split` has an outcome for every leaf that holds a point when the dimension
is in range for its points and its bounding box. -/
theorem split_keeps_every_point {C : Type} [LT C] [DecidableRel (fun a b : C => a < b)]
    (l : SpatialLeaf C) (dimension : DimensionType) :
    (∀ r, l.Split dimension = some r →
      (r.returned._points : Multiset (Point C)) + (r.retained._points : Multiset (Point C))
        = (l._points : Multiset (Point C)) ∧
      r.returned.Size + r.retained.Size = l.Size) ∧
    (l._points ≠ [] → (∀ p ∈ l._points, dimension < p.Dimension) →
      dimension < l._bounds._mins.length → dimension < l._bounds._maxs.length →
      ∃ r, l.Split dimension = some r ∧
        (r.returned._points : Multiset (Point C)) + (r.retained._points : Multiset (Point C))
          = (l._points : Multiset (Point C)) ∧
        r.returned.Size + r.retained.Size = l.Size) := by
  have hkeep : ∀ r, l.Split dimension = some r →
      (r.returned._points : Multiset (Point C)) + (r.retained._points : Multiset (Point C))
        = (l._points : Multiset (Point C)) ∧
      r.returned.Size + r.retained.Size = l.Size := by
    intro r hr
    have hperm := (split_spec l dimension r hr).1
    refine ⟨?_, ?_⟩
    · rw [Multiset.coe_add]
      exact Multiset.coe_eq_coe.mpr hperm
    · have := hperm.length_eq
      simpa [SpatialLeaf.Size] using this
  refine ⟨hkeep, ?_⟩
  intro hne hp hmin hmax
  obtain ⟨r, hr⟩ := split_total l dimension hne hp hmin hmax
  exact ⟨r, hr, hkeep r hr⟩

/-- Witness of C10: the one-dimensional leaf holding 5, 1, 9 is split at the median 5 into
the lower leaf holding 1 and the retained leaf holding 5, 9. -/
theorem split_keeps_every_point_witness :
    ((⟨⟨[-100], [100]⟩, 2, [⟨0, [5]⟩, ⟨1, [1]⟩, ⟨2, [9]⟩]⟩ : SpatialLeaf Int).Split 0 =
      some ⟨⟨⟨[-100], [5]⟩, 2, [⟨1, [1]⟩]⟩, 5, ⟨⟨[5], [100]⟩, 2, [⟨0, [5]⟩, ⟨2, [9]⟩]⟩⟩) ∧
    ((([⟨1, [1]⟩] : List (Point Int)) : Multiset (Point Int)) +
        (([⟨0, [5]⟩, ⟨2, [9]⟩] : List (Point Int)) : Multiset (Point Int)) =
      (([⟨0, [5]⟩, ⟨1, [1]⟩, ⟨2, [9]⟩] : List (Point Int)) : Multiset (Point Int))) ∧
    (∀ p ∈ ([⟨0, [5]⟩, ⟨1, [1]⟩, ⟨2, [9]⟩] : List (Point Int)), 0 < p.Dimension) ∧
    ∃ r, (⟨⟨[-100], [100]⟩, 2, [⟨0, [5]⟩, ⟨1, [1]⟩, ⟨2, [9]⟩]⟩ : SpatialLeaf Int).Split 0 =
        some r ∧
      (r.returned._points : Multiset (Point Int)) + (r.retained._points : Multiset (Point Int))
        = (([⟨0, [5]⟩, ⟨1, [1]⟩, ⟨2, [9]⟩] : List (Point Int)) : Multiset (Point Int)) ∧
      r.returned.Size + r.retained.Size = 3 :=
  ⟨rfl,
    ((split_keeps_every_point
      (⟨⟨[-100], [100]⟩, 2, [⟨0, [5]⟩, ⟨1, [1]⟩, ⟨2, [9]⟩]⟩ : SpatialLeaf Int) 0).1
      ⟨⟨⟨[-100], [5]⟩, 2, [⟨1, [1]⟩]⟩, 5, ⟨⟨[5], [100]⟩, 2, [⟨0, [5]⟩, ⟨2, [9]⟩]⟩⟩ rfl).1,
    by simp [Point.Dimension],
    (split_keeps_every_point
      (⟨⟨[-100], [100]⟩, 2, [⟨0, [5]⟩, ⟨1, [1]⟩, ⟨2, [9]⟩]⟩ : SpatialLeaf Int) 0).2
      (by simp) (by simp [Point.Dimension]) (by decide) (by decide)⟩

/-! ## Bounds::Split and next (C11, C12) -/

/-- C11: for every Bounds b of dimension D, every dimension d < D and every value v,
`b.Split(d, v)` returns the lower-half box: its mins equal the mins of b, and its maxs equal
the maxs of b at every index except d, where `maxs[d] = v`. -/
theorem bounds_split_lower_half {C : Type} (b : Bounds C) (D d : DimensionType) (v : C)
    (hmin : b._mins.length = D) (hmax : b._maxs.length = D) (hd : d < D) :
    ∃ lower, b.Split d v = some lower ∧ lower._mins = b._mins ∧
      lower._mins.length = D ∧ lower._maxs.length = D ∧ lower._maxs[d]? = some v ∧
      ∀ i, i ≠ d → lower._maxs[i]? = b._maxs[i]? := by
  have hlt : d < b._maxs.length := by rw [hmax]; exact hd
  refine ⟨{ b with _maxs := b._maxs.set d v }, ?_, rfl, hmin, ?_, ?_, ?_⟩
  · simp only [Bounds.Split, hlt, if_true]
  · simp only [List.length_set, hmax]
  · simp [List.getElem?_set, hlt]
  · intro i hi
    simp [List.getElem?_set, Ne.symm hi]

/-- Witness of C11: the box with mins 0, 0 and maxs 10, 20 split along dimension 1 at 7
keeps its mins and gets the maxs 10, 7. -/
theorem bounds_split_lower_half_witness :
    (⟨[0, 0], [10, 20]⟩ : Bounds Int).Split 1 7 = some ⟨[0, 0], [10, 7]⟩ ∧
    ∃ lower, (⟨[0, 0], [10, 20]⟩ : Bounds Int).Split 1 7 = some lower ∧
      lower._mins = [0, 0] ∧ lower._mins.length = 2 ∧ lower._maxs.length = 2 ∧
      lower._maxs[1]? = some 7 ∧
      ∀ i, i ≠ 1 → lower._maxs[i]? = ([10, 20] : List Int)[i]? :=
  ⟨rfl, bounds_split_lower_half (⟨[0, 0], [10, 20]⟩ : Bounds Int) 2 1 7 rfl rfl (by decide)⟩

/-- C12: for every maxDimension > 0 and every dimension < maxDimension,
`next(dimension, maxDimension)` is `(dimension + 1) mod maxDimension`; hence the result is
again below maxDimension, and applying `next` maxDimension times returns to the starting
dimension. -/
theorem next_rotates (dimension maxDimension : DimensionType) (hpos : maxDimension > 0)
    (hd : dimension < maxDimension) :
    next dimension maxDimension = (dimension + 1) % maxDimension ∧
    next dimension maxDimension < maxDimension ∧
    (fun x => next x maxDimension)^[maxDimension] dimension = dimension := by
  refine ⟨rfl, Nat.mod_lt _ hpos, ?_⟩
  have hiter : ∀ k, (fun x => next x maxDimension)^[k] dimension =
      (dimension + k) % maxDimension := by
    intro k
    induction k with
    | zero => simp [Nat.mod_eq_of_lt hd]
    | succ k ih =>
      rw [Function.iterate_succ_apply', ih]
      simp only [next]
      rw [Nat.mod_add_mod, Nat.add_assoc]
  rw [hiter, Nat.add_mod_right, Nat.mod_eq_of_lt hd]

/-- Witness of C12: in three dimensions the step from dimension 2 wraps to 0, and three
steps from dimension 1 come back to 1. -/
theorem next_rotates_witness :
    next 2 3 = 0 ∧
    (next 1 3 = (1 + 1) % 3 ∧ next 1 3 < 3 ∧ (fun x => next x 3)^[3] 1 = 1) :=
  ⟨rfl, next_rotates 1 3 (by decide) (by decide)⟩

/-! ## DimensionComparator (C13) -/

section Comparator

theorem component_of_lt_dimension {C : Type} (p : Point C) (d : DimensionType)
    (h : d < p.Dimension) : ∃ c, p.Component d = some c := by
  have hlen : d < p._location.length := h
  exact ⟨p._location[d], by simp [Point.Component, List.getElem?_eq_getElem hlen]⟩

theorem call_of_components {C : Type} [LT C] [DecidableRel (fun a b : C => a < b)]
    (d : DimensionType) (p1 p2 : Point C) (c1 c2 : C) (h1 : p1.Component d = some c1)
    (h2 : p2.Component d = some c2) :
    (DimensionComparator.mk d).call p1 p2 = some (decide (c1 < c2)) := by
  simp only [DimensionComparator.call, h1, h2]

theorem holds_iff_of_components {C : Type} [LT C] [DecidableRel (fun a b : C => a < b)]
    (d : DimensionType) (p1 p2 : Point C) (c1 c2 : C) (h1 : p1.Component d = some c1)
    (h2 : p2.Component d = some c2) :
    (DimensionComparator.mk d).Holds p1 p2 ↔ c1 < c2 := by
  simp [DimensionComparator.Holds, call_of_components d p1 p2 c1 c2 h1 h2]

theorem incomparable_iff_of_components {C : Type} [LT C] [DecidableRel (fun a b : C => a < b)]
    (d : DimensionType) (p1 p2 : Point C) (c1 c2 : C) (h1 : p1.Component d = some c1)
    (h2 : p2.Component d = some c2) :
    (DimensionComparator.mk d).Incomparable p1 p2 ↔ ¬ c1 < c2 ∧ ¬ c2 < c1 := by
  simp [DimensionComparator.Incomparable, call_of_components d p1 p2 c1 c2 h1 h2,
    call_of_components d p2 p1 c2 c1 h2 h1]

theorem coordinate_number_lt_number {V : Type} [LT V] (x y : V) :
    (CoordinateType.number x < CoordinateType.number y) ↔ x < y :=
  Iff.rfl

theorem coordinate_lt_irrefl {V : Type} [Preorder V] (c : CoordinateType V) : ¬ c < c := by
  cases c with
  | nan => exact fun h => h
  | number x => exact fun h => lt_irrefl x h

theorem coordinate_lt_trans {V : Type} [Preorder V] (a b c : CoordinateType V)
    (hab : a < b) (hbc : b < c) : a < c := by
  cases a with
  | nan => exact absurd hab (fun h => h)
  | number x =>
    cases b with
    | nan => exact absurd hab (fun h => h)
    | number y =>
      cases c with
      | nan => exact absurd hbc (fun h => h)
      | number z => exact lt_trans hab hbc

end Comparator

/-- Counterexample to C13 as stated: along dimension 0 the point with component 1 and the
point with a NaN component are incomparable, so are the NaN point and the point with
component 2, yet the comparator holds of the points with components 1 and 2; the
incomparable points do not have equal components either. -/
theorem dimensionComparator_nan_breaks_weak_order :
    (0 < (⟨0, [.number 1]⟩ : Point (CoordinateType Int)).Dimension ∧
      0 < (⟨1, [.nan]⟩ : Point (CoordinateType Int)).Dimension ∧
      0 < (⟨2, [.number 2]⟩ : Point (CoordinateType Int)).Dimension) ∧
    (DimensionComparator.mk 0).Incomparable
      (⟨0, [.number 1]⟩ : Point (CoordinateType Int)) ⟨1, [.nan]⟩ ∧
    (DimensionComparator.mk 0).Incomparable
      (⟨1, [.nan]⟩ : Point (CoordinateType Int)) ⟨2, [.number 2]⟩ ∧
    ¬ (DimensionComparator.mk 0).Incomparable
      (⟨0, [.number 1]⟩ : Point (CoordinateType Int)) ⟨2, [.number 2]⟩ ∧
    (DimensionComparator.mk 0).call
      (⟨0, [.number 1]⟩ : Point (CoordinateType Int)) ⟨2, [.number 2]⟩ = some true ∧
    (⟨0, [.number 1]⟩ : Point (CoordinateType Int)).Component 0 ≠
      (⟨1, [.nan]⟩ : Point (CoordinateType Int)).Component 0 := by
  refine ⟨⟨by decide, by decide, by decide⟩, ⟨rfl, rfl⟩, ⟨rfl, rfl⟩, ?_, rfl, ?_⟩
  · intro h
    exact absurd h.1 (by decide)
  · simp [Point.Component]

/-- C13, amended: for every dimension d and points of dimension greater than d,
`DimensionComparator(d)` is decided solely by the components along d: it holds of p1 and p2
iff `p1.Component(d) < p2.Component(d)`, and points with the same components along d, whatever
their ids and other coordinates, get the same result; it is irreflexive and transitive; and
over points whose component along d is a number, not a NaN, incomparability is equality of
the components and is transitive. -/
theorem dimensionComparator_strict_weak_order_on_numbers {V : Type} [LinearOrder V]
    (d : DimensionType) (p1 p2 p3 : Point (CoordinateType V))
    (h1 : d < p1.Dimension) (h2 : d < p2.Dimension) (h3 : d < p3.Dimension) :
    (∃ c1 c2, p1.Component d = some c1 ∧ p2.Component d = some c2 ∧
      ((DimensionComparator.mk d).Holds p1 p2 ↔ c1 < c2)) ∧
    (∀ q1 q2 : Point (CoordinateType V), q1.Component d = p1.Component d →
      q2.Component d = p2.Component d →
      (DimensionComparator.mk d).call q1 q2 = (DimensionComparator.mk d).call p1 p2) ∧
    ¬ (DimensionComparator.mk d).Holds p1 p1 ∧
    ((DimensionComparator.mk d).Holds p1 p2 → (DimensionComparator.mk d).Holds p2 p3 →
      (DimensionComparator.mk d).Holds p1 p3) ∧
    (∀ x1 x2 x3 : V, p1.Component d = some (.number x1) →
      p2.Component d = some (.number x2) → p3.Component d = some (.number x3) →
      ((DimensionComparator.mk d).Incomparable p1 p2 ↔ x1 = x2) ∧
      ((DimensionComparator.mk d).Incomparable p1 p2 →
        (DimensionComparator.mk d).Incomparable p2 p3 →
        (DimensionComparator.mk d).Incomparable p1 p3)) := by
  obtain ⟨c1, e1⟩ := component_of_lt_dimension p1 d h1
  obtain ⟨c2, e2⟩ := component_of_lt_dimension p2 d h2
  obtain ⟨c3, e3⟩ := component_of_lt_dimension p3 d h3
  refine ⟨⟨c1, c2, e1, e2, holds_iff_of_components d p1 p2 c1 c2 e1 e2⟩, ?_, ?_, ?_, ?_⟩
  · intro q1 q2 hq1 hq2
    simp only [DimensionComparator.call, hq1, hq2]
  · rw [holds_iff_of_components d p1 p1 c1 c1 e1 e1]
    exact coordinate_lt_irrefl c1
  · rw [holds_iff_of_components d p1 p2 c1 c2 e1 e2,
      holds_iff_of_components d p2 p3 c2 c3 e2 e3,
      holds_iff_of_components d p1 p3 c1 c3 e1 e3]
    exact coordinate_lt_trans c1 c2 c3
  · intro x1 x2 x3 n1 n2 n3
    rw [incomparable_iff_of_components d p1 p2 _ _ n1 n2,
      incomparable_iff_of_components d p2 p3 _ _ n2 n3,
      incomparable_iff_of_components d p1 p3 _ _ n1 n3]
    simp only [coordinate_number_lt_number, not_lt]
    refine ⟨⟨fun h => le_antisymm h.2 h.1, fun h => ⟨h.ge, h.le⟩⟩, ?_⟩
    intro h12 h23
    exact ⟨le_trans h23.1 h12.1, le_trans h12.2 h23.2⟩

/-- Witness of C13: three two-dimensional points compared along dimension 1, with
components 4, 4 and 9. -/
theorem dimensionComparator_strict_weak_order_on_numbers_witness :
    (DimensionComparator.mk 1).Incomparable
      (⟨0, [.number 7, .number 4]⟩ : Point (CoordinateType Int))
      ⟨1, [.nan, .number 4]⟩ ∧
    (DimensionComparator.mk 1).Holds
      (⟨1, [.nan, .number 4]⟩ : Point (CoordinateType Int))
      ⟨2, [.number 0, .number 9]⟩ ∧
    ¬ (DimensionComparator.mk 1).Holds
      (⟨0, [.number 7, .number 4]⟩ : Point (CoordinateType Int))
      ⟨0, [.number 7, .number 4]⟩ :=
  have h := dimensionComparator_strict_weak_order_on_numbers 1
    (⟨0, [.number 7, .number 4]⟩ : Point (CoordinateType Int))
    ⟨1, [.nan, .number 4]⟩ ⟨2, [.number 0, .number 9]⟩
    (by decide) (by decide) (by decide)
  ⟨((h.2.2.2.2 4 4 9 rfl rfl rfl).1).mpr rfl, rfl, h.2.2.1⟩

/-! ## Point (C14, C15) -/

/-- C14: for every point built from an id and a coordinate vector v, `Dimension()` is the
length of v, and for every dim below `Dimension()`, `Component(dim)` returns `v[dim]`; the
copying and the moving constructor yield the same point, hence the same observations. -/
theorem point_observes_its_vector {C : Type} (id : Nat) (v : List C) :
    (Point.fromCopy id v).Dimension = v.length ∧
    (Point.fromMove id v).Dimension = v.length ∧
    (∀ (dim : DimensionType) (h : dim < v.length),
      dim < (Point.fromCopy id v).Dimension ∧
      (Point.fromCopy id v).Component dim = some (v.get ⟨dim, h⟩) ∧
      (Point.fromMove id v).Component dim = some (v.get ⟨dim, h⟩)) ∧
    Point.fromMove id v = Point.fromCopy id v := by
  refine ⟨rfl, rfl, ?_, rfl⟩
  intro dim h
  refine ⟨h, ?_, ?_⟩ <;>
    simp [Point.fromCopy, Point.fromMove, Point.Component, List.getElem?_eq_getElem h]

/-- Witness of C14: the point with id 7 built from the vector 4, 5, 6 has dimension 3 and
component 5 along dimension 1. -/
theorem point_observes_its_vector_witness :
    (Point.fromCopy 7 ([4, 5, 6] : List Int)).Dimension = 3 ∧
    (Point.fromCopy 7 ([4, 5, 6] : List Int)).Component 1 = some 5 ∧
    (Point.fromMove 7 ([4, 5, 6] : List Int)).Component 1 = some 5 :=
  ⟨(point_observes_its_vector 7 ([4, 5, 6] : List Int)).1,
    ((point_observes_its_vector 7 ([4, 5, 6] : List Int)).2.2.1 1 (by decide)).2.1,
    ((point_observes_its_vector 7 ([4, 5, 6] : List Int)).2.2.1 1 (by decide)).2.2⟩

/-- Counterexample to C15 as stated: asked for dimension 1, which is not below its
dimension 1, the point with the single coordinate 5 does not end in an error; the read is
undefined behaviour. -/
theorem component_out_of_range_is_no_error :
    1 ≥ (Point.fromCopy 0 ([5] : List Int)).Dimension ∧
    (Point.fromCopy 0 ([5] : List Int)).ComponentOutcome 1 ≠ Outcome.error ∧
    (Point.fromCopy 0 ([5] : List Int)).ComponentOutcome 1 = Outcome.undefined := by
  refine ⟨by decide, ?_, rfl⟩
  intro h
  cases h

/-- C15, amended: requesting a coordinate component with a dimension index outside
`[0, D)` is not checked by the code: for every point p and every dim at or above
`p.Dimension()`, `Component(dim)` is a read outside the coordinate vector, which is
undefined behaviour; it yields neither an error nor a defined coordinate value. -/
theorem component_out_of_range_is_undefined {C : Type} (p : Point C) (dim : DimensionType)
    (h : dim ≥ p.Dimension) :
    p.ComponentOutcome dim = Outcome.undefined ∧ p.ComponentOutcome dim ≠ Outcome.error ∧
    (∀ c, p.ComponentOutcome dim ≠ Outcome.value c) ∧ p.Component dim = none := by
  have hlen : p._location.length ≤ dim := h
  have hnone : p.Component dim = none := by
    simp [Point.Component, List.getElem?_eq_none hlen]
  have hund : p.ComponentOutcome dim = Outcome.undefined := by
    simp only [Point.ComponentOutcome, hnone]
  refine ⟨hund, ?_, ?_, hnone⟩
  · rw [hund]; intro h0; cases h0
  · intro c; rw [hund]; intro h0; cases h0

/-- Witness of C15: the two-dimensional point 4, 5 asked for dimension 2. -/
theorem component_out_of_range_is_undefined_witness :
    2 ≥ (Point.fromCopy 3 ([4, 5] : List Int)).Dimension ∧
    (Point.fromCopy 3 ([4, 5] : List Int)).ComponentOutcome 2 = Outcome.undefined ∧
    (Point.fromCopy 3 ([4, 5] : List Int)).Component 2 = none :=
  ⟨by decide,
    (component_out_of_range_is_undefined (Point.fromCopy 3 ([4, 5] : List Int)) 2
      (by decide)).1,
    (component_out_of_range_is_undefined (Point.fromCopy 3 ([4, 5] : List Int)) 2
      (by decide)).2.2.2⟩

/-! ## Relations between the aggregates (C16, C17, C18, C19) -/

theorem depth_pos {C : Type} (t : SpatialBranch C) : 1 ≤ t.Depth := by
  cases t with
  | leaf l => exact Nat.le_refl 1
  | tree d v lb ub => exact Nat.le_add_left 1 _

theorem numLeaves_ge_one {C : Type} (t : SpatialBranch C) : 1 ≤ t.NumLeaves := by
  induction t with
  | leaf l => exact Nat.le_refl 1
  | tree d v lb ub ihl ihu =>
    simp only [SpatialBranch.NumLeaves]
    omega

/-- C16: for every tree, `Size() <= NumLeaves() * MaxItemsPerLeaf()` over the natural
numbers: the total point count never exceeds the leaf count times the fill of the fullest
leaf. -/
theorem size_le_numLeaves_mul_maxItemsPerLeaf {C : Type} (t : SpatialBranch C) :
    t.Size ≤ t.NumLeaves * t.MaxItemsPerLeaf := by
  induction t with
  | leaf l =>
    simp [SpatialBranch.Size, SpatialBranch.NumLeaves, SpatialBranch.MaxItemsPerLeaf,
      SpatialLeaf.NumLeaves, SpatialLeaf.MaxItemsPerLeaf]
  | tree d v lb ub ihl ihu =>
    simp only [SpatialBranch.Size, SpatialBranch.NumLeaves, SpatialBranch.MaxItemsPerLeaf]
    have hl : lb.NumLeaves * lb.MaxItemsPerLeaf ≤
        lb.NumLeaves * max lb.MaxItemsPerLeaf ub.MaxItemsPerLeaf :=
      Nat.mul_le_mul_left _ (le_max_left _ _)
    have hu : ub.NumLeaves * ub.MaxItemsPerLeaf ≤
        ub.NumLeaves * max lb.MaxItemsPerLeaf ub.MaxItemsPerLeaf :=
      Nat.mul_le_mul_left _ (le_max_right _ _)
    rw [Nat.add_mul]
    omega

/-- C17: for every tree, `1 <= Depth() <= NumLeaves()`: every internal node has exactly
two children, so the depth never exceeds the number of leaves. -/
theorem depth_between_one_and_numLeaves {C : Type} (t : SpatialBranch C) :
    1 ≤ t.Depth ∧ t.Depth ≤ t.NumLeaves := by
  refine ⟨depth_pos t, ?_⟩
  induction t with
  | leaf l => exact Nat.le_refl 1
  | tree d v lb ub ihl ihu =>
    have h1 := numLeaves_ge_one lb
    have h2 := numLeaves_ge_one ub
    simp only [SpatialBranch.Depth, SpatialBranch.NumLeaves]
    omega

/-- C18: for every tree, `NumLeaves() <= 2^(Depth() - 1)`: a binary tree of depth d has
at most `2^(d-1)` leaves. -/
theorem numLeaves_le_two_pow_depth {C : Type} (t : SpatialBranch C) :
    t.NumLeaves ≤ 2 ^ (t.Depth - 1) := by
  induction t with
  | leaf l => simp [SpatialBranch.NumLeaves, SpatialBranch.Depth, SpatialLeaf.NumLeaves,
      SpatialLeaf.Depth]
  | tree d v lb ub ihl ihu =>
    have hl : (2 : Nat) ^ (lb.Depth - 1) ≤ 2 ^ (max lb.Depth ub.Depth - 1) :=
      Nat.pow_le_pow_right (by decide) (Nat.sub_le_sub_right (le_max_left _ _) 1)
    have hu : (2 : Nat) ^ (ub.Depth - 1) ≤ 2 ^ (max lb.Depth ub.Depth - 1) :=
      Nat.pow_le_pow_right (by decide) (Nat.sub_le_sub_right (le_max_right _ _) 1)
    have hpos : 1 ≤ max lb.Depth ub.Depth := le_trans (depth_pos lb) (le_max_left _ _)
    have hpow : (2 : Nat) ^ (max lb.Depth ub.Depth + 1 - 1) =
        2 * 2 ^ (max lb.Depth ub.Depth - 1) := by
      rw [Nat.add_sub_cancel, ← Nat.pow_succ']
      congr 1
      omega
    simp only [SpatialBranch.NumLeaves, SpatialBranch.Depth]
    rw [hpow]
    omega

/-- C19: for every tree, `MaxItemsPerLeaf() <= Size()`, and `MaxItemsPerLeaf() == 0` if
and only if `Size() == 0`: the tree holds no point exactly when its fullest leaf is
empty. -/
theorem maxItemsPerLeaf_le_size_and_zero_iff {C : Type} (t : SpatialBranch C) :
    t.MaxItemsPerLeaf ≤ t.Size ∧ (t.MaxItemsPerLeaf = 0 ↔ t.Size = 0) := by
  induction t with
  | leaf l =>
    simp [SpatialBranch.MaxItemsPerLeaf, SpatialBranch.Size, SpatialLeaf.MaxItemsPerLeaf]
  | tree d v lb ub ihl ihu =>
    simp only [SpatialBranch.MaxItemsPerLeaf, SpatialBranch.Size]
    obtain ⟨hl, zl⟩ := ihl
    obtain ⟨hu, zu⟩ := ihu
    constructor
    · exact max_le (by omega) (by omega)
    · constructor
      · intro h
        have h1 : lb.MaxItemsPerLeaf = 0 := by
          have := le_max_left lb.MaxItemsPerLeaf ub.MaxItemsPerLeaf
          omega
        have h2 : ub.MaxItemsPerLeaf = 0 := by
          have := le_max_right lb.MaxItemsPerLeaf ub.MaxItemsPerLeaf
          omega
        have := zl.mp h1
        have := zu.mp h2
        omega
      · intro h
        have h1 : lb.MaxItemsPerLeaf = 0 := zl.mpr (by omega)
        have h2 : ub.MaxItemsPerLeaf = 0 := zu.mpr (by omega)
        rw [h1, h2]
        rfl

end SpatialSearch
